import Mathlib

/-!
# Sessile drop configuration (`sessile.c`)

A shallow embedding of the parts of `sessile.c` that are plain arithmetic or
plain control flow: the parameter macros, the initial-drop level-set function
`geometry`, the contact-angle argument, the two gravity settings, the hard
timestep cap, the vorticity mask, the frame counter of the `output` event and
the `umax` reduction of the `log` event.

C `double` values are read in exact arithmetic: every definition is written over
an arbitrary linearly ordered field `K`, so that it runs on `ℚ` and can be
reasoned about on `ℝ`.  Library functions that are not part of `sessile.c`
(`sqrt`, the constant `pi`) are taken as parameters.
-/

namespace Sessile

section Embedding

variable {K : Type} [LinearOrderedField K]

/-- Basilisk's `sq(x)`, the square `x*x`. -/
def sq (x : K) : K := x * x

/-! ## Parameters (lines 9-14) -/

/-- Macro `#define R 0.005`. -/
def R : K := 0.005

/-- Macro `#define pool_depth 0.0*(2*R)`.  The macro body is a product, so its textual
expansion after a binary `-` groups as this value. -/
def pool_depth : K := 0.0 * (2 * R)

/-- Macro `#define gap -0.5*(2*R)`.  The macro body is a product with a negated first
factor, so its textual expansion after a binary `-` groups as this value. -/
def gap : K := -0.5 * (2 * R)

/-- Macro `#define L0 (4*R)`. -/
def L0 : K := 4 * R

/-- Macro `#define tEnd 0.3`. -/
def tEnd : K := 0.3

/-! ## Initial drop (lines 43-46) -/

/-- Function `double geometry(double x, double y)`:
`return -(sq(x - pool_depth - R - gap) + sq(y) - sq(R));` -/
def geometry (x y : K) : K :=
  -(sq (x - pool_depth - R - gap) + sq y - sq R)

/-! ## Hard dt cap (lines 67-70) -/

/-- Assignment `DT = 1e-6;` in `main()`. -/
def DT : K := 1e-6

/-- Event `event timestep(i++) { if (dt > 1e-5) dt = 1e-5; }` as a function of
the incoming `dt`, returning the value of `dt` after the event. -/
def timestep (dt : K) : K :=
  if dt > 1e-5 then 1e-5 else dt

/-! ## Contact angle (lines 16-19) -/

/-- Global `double theta0 = 50;` (degrees). -/
def theta0 : K := 50

/-- The argument of `contact_angle(theta0*pi/180.)` in the boundary condition
`h.t[left]`.  Basilisk's constant `pi` is not part of `sessile.c` and is a
parameter. -/
def contact_angle_arg (pi : K) : K := theta0 * pi / 180.

/-! ## Gravity (lines 39 and 56-60) -/

/-- Assignment `G.x = -9.81;` in `main()`: the reduced-gravity acceleration along `x`. -/
def G_x : K := -9.81

/-- A face vector field: one value per face and per component. -/
structure FaceVector (K : Type) (F : Type) where
  /-- Values on the `x`-faces. -/
  x : F → K
  /-- Values on the `y`-faces. -/
  y : F → K

/-- Event `event gravity(i++) { face vector av = a; foreach_face(x) av.x[] -= 9.81; }`
as a function of the acceleration field `a`. -/
def gravity {F : Type} (a : FaceVector K F) : FaceVector K F :=
  { x := fun i => a.x i - 9.81, y := a.y }

/-! ## Mesh levels (lines 28-30 and 62-65) -/

/-- Argument `maxlevel=7` in the call of `adapt_wavelet`. -/
def maxlevel : Nat := 7

/-- Argument `minlevel=5` in the call of `adapt_wavelet`. -/
def minlevel : Nat := 5

/-- The argument of `init_grid(1 << 8)` in `main()`. -/
def init_grid_arg : Nat := 1 <<< 8

/-- Modelled from the spec: the level of the uniform grid that `init_grid(N)`
builds (`init_grid` is a Basilisk function, absent from `sessile.c`); a uniform
grid of `N = 2^k` cells per side has level `k`. -/
def grid_level (N : Nat) : Nat := Nat.log 2 N

/-- The level of every cell of the initial mesh of `main()`. -/
def init_level : Nat := grid_level init_grid_arg

/-- The thresholds `(double[]){1e-3,1e-3,1e-3}` for `f`, `u.x` and `u.y` in the
call of `adapt_wavelet`. -/
def adapt_thresholds : K × K × K := (1e-3, 1e-3, 1e-3)

/-- Modelled from the spec: what `adapt_wavelet` (a Basilisk function, absent
from `sessile.c`) does to the level `L` of one cell, given the wavelet error
estimates `e` of the three fields: it refines cells whose estimated error
exceeds the threshold up to `maxl`, and coarsens cells below the threshold down
to `minl`. -/
def adapt_wavelet_level (thr : K × K × K) (maxl minl : Nat) (e : K × K × K)
    (L : Nat) : Nat :=
  if e.1 > thr.1 ∨ e.2.1 > thr.2.1 ∨ e.2.2 > thr.2.2 then
    (if L < maxl then L + 1 else L)
  else if e.1 < thr.1 ∧ e.2.1 < thr.2.1 ∧ e.2.2 < thr.2.2 then
    (if minl < L then L - 1 else L)
  else L

/-- Event `event adapt(i++)` on the level of one cell:
`adapt_wavelet({f,u}, (double[]){1e-3,1e-3,1e-3}, maxlevel=7, minlevel=5)`. -/
def adapt (e : K × K × K) (L : Nat) : Nat :=
  adapt_wavelet_level adapt_thresholds maxlevel minlevel e L

/-- The level of one cell after the `adapt` events of successive steps, whose
error estimates are `es`, starting from level `L`. -/
def adapt_run (es : List (K × K × K)) (L : Nat) : Nat :=
  es.foldl (fun l e => adapt e l) L

/-! ## Output every 0.5 ms (lines 72-103) -/

/-- The mask of the vorticity image: `m[] = (f[] > 0.05 && f[] < 0.95);`.  The C
truth value is stored in a `double` field as `1` or `0`. -/
def mask (f : K) : K :=
  if f > 0.05 ∧ f < 0.95 then 1 else 0

/-- What one firing of the `output` event writes that depends on the frame
counter: the integer formatted into each file name and into the progress
record, together with the time of the firing. -/
structure OutputRecord (K : Type) where
  /-- Time `t` of the firing. -/
  t : K
  /-- Index in `"interface/%04d.dat"`. -/
  interface_idx : Int
  /-- Index in `"image/vof-%04d.png"`. -/
  vof_idx : Int
  /-- Index in `"image/vort-%04d.png"`. -/
  vort_idx : Int
  /-- Index printed as `frame=%04d`. -/
  progress_idx : Int
  deriving DecidableEq

/-- The body of `event output`, as a function of the time `t` and of the static
counter `nf`: the three `sprintf` calls read `nf`, then `nf++`, then the
progress record prints `nf-1`.  Returns the record and the new value of `nf`. -/
def output (t : K) (nf : Int) : OutputRecord K × Int :=
  let interface_idx := nf
  let vof_idx := nf
  let vort_idx := nf
  let nf := nf + 1
  ({ t := t, interface_idx := interface_idx, vof_idx := vof_idx,
     vort_idx := vort_idx, progress_idx := nf - 1 }, nf)

/-- The schedule `event output(t += 0.0005; t <= tEnd)`: starting at time `t`
with counter `nf`, fire while `t <= tEnd`, advancing `t` by `0.0005` after each
firing.  `fuel` bounds the number of firings. -/
def output_run : Nat → K → Int → List (OutputRecord K)
  | 0, _, _ => []
  | fuel + 1, t, nf =>
    if t ≤ tEnd then
      (output t nf).1 :: output_run fuel (t + 0.0005) (output t nf).2
    else []

/-- The firings of the `output` event in a run: the schedule started at `t = 0`
with `static int nf = 0`. -/
def output_events (fuel : Nat) : List (OutputRecord K) :=
  output_run fuel 0 0

/-! ## Log (lines 110-116) -/

/-- The loop of `event log`: `double umax = 0.;` then, for every cell,
`umax = max(umax, sqrt(sq(u.x[])+sq(u.y[])))`.  The cells are given as the list
of their velocity components `(u.x, u.y)`; the C library function `sqrt` is a
parameter. -/
def log_umax (sqrt : K → K) (cells : List (K × K)) : K :=
  cells.foldl (fun umax u => max umax (sqrt (sq u.1 + sq u.2))) 0

end Embedding

/-! ## Theorems -/

/-! ### Hard dt cap -/

/-- The value that the `timestep` event leaves in `dt` is `dt` itself when
`dt ≤ 1e-5`. -/
theorem timestep_of_le {K : Type} [LinearOrderedField K] (dt : K)
    (h : dt ≤ 1e-5) : timestep dt = dt := by
  unfold timestep
  rw [if_neg (not_lt.mpr h)]

/-- The value that the `timestep` event leaves in `dt` never exceeds `1e-5`. -/
theorem timestep_le {K : Type} [LinearOrderedField K] (dt : K) :
    timestep dt ≤ 1e-5 := by
  unfold timestep
  split_ifs with h
  · exact le_refl _
  · exact not_lt.mp h

/-- C1: whatever `dt` is on entry to the `timestep` event, `dt` after the event
is at most `1e-5`. -/
theorem timestep_le_cap {K : Type} [LinearOrderedField K] (dt : K) :
    timestep dt ≤ 1e-5 := by
  unfold timestep
  by_cases h : dt > 1e-5
  · rw [if_pos h]
  · rw [if_neg h]
    exact le_of_not_lt h

/-- C10: the `timestep` event leaves `dt` unchanged whenever `dt ≤ 1e-5`; `DT`
is below the cap, so every `dt ≤ DT` is left unchanged; and the event is
idempotent. -/
theorem timestep_fixed_below_cap {K : Type} [LinearOrderedField K] (dt : K) :
    (dt ≤ 1e-5 → timestep dt = dt) ∧
    (DT : K) = 1e-6 ∧
    (DT : K) ≤ 1e-5 ∧
    (dt ≤ DT → timestep dt = dt) ∧
    timestep (timestep dt) = timestep dt := by
  have hDT : (DT : K) ≤ 1e-5 := by
    unfold DT
    norm_num
  exact ⟨timestep_of_le dt, rfl, hDT,
    fun h => timestep_of_le dt (le_trans h hDT),
    timestep_of_le _ (timestep_le dt)⟩

/-- Witness of C10 at `dt = 5e-7`, which is below `DT`. -/
theorem timestep_fixed_below_cap_witness :
    (5e-7 : ℚ) ≤ DT ∧ timestep (5e-7 : ℚ) = 5e-7 :=
  have h : (5e-7 : ℚ) ≤ DT := by
    unfold DT
    norm_num
  ⟨h, (timestep_fixed_below_cap (5e-7 : ℚ)).2.2.2.1 h⟩

/-! ### Initial drop -/

/-- The expanded body of `geometry`: the offset `pool_depth + R + gap` cancels
and `geometry x y = R^2 - x^2 - y^2` with `R = 0.005`. -/
theorem geometry_eq {K : Type} [LinearOrderedField K] (x y : K) :
    geometry x y = (0.005 : K) ^ 2 - x ^ 2 - y ^ 2 := by
  unfold geometry pool_depth gap R sq
  ring

/-- C3: `geometry x y = R^2 - x^2 - y^2` with `R = 0.005`, the offset
`pool_depth + R + gap` being `0`; `geometry` is positive exactly strictly inside
the circle of radius `0.005` centred at `(0, 0)`, zero exactly on it and
negative exactly outside it. -/
theorem geometry_circle (x y : ℝ) :
    geometry x y = (0.005 : ℝ) ^ 2 - x ^ 2 - y ^ 2 ∧
    (R : ℝ) = 0.005 ∧
    (pool_depth + R + gap : ℝ) = 0 ∧
    (0 < geometry x y ↔ Real.sqrt ((x - 0) ^ 2 + (y - 0) ^ 2) < 0.005) ∧
    (geometry x y = 0 ↔ Real.sqrt ((x - 0) ^ 2 + (y - 0) ^ 2) = 0.005) ∧
    (geometry x y < 0 ↔ 0.005 < Real.sqrt ((x - 0) ^ 2 + (y - 0) ^ 2)) := by
  have hnn : (0 : ℝ) ≤ x ^ 2 + y ^ 2 := by positivity
  have hR : (0 : ℝ) < 0.005 := by norm_num
  refine ⟨geometry_eq x y, rfl, ?_, ?_, ?_, ?_⟩
  · unfold pool_depth gap R
    ring
  · rw [geometry_eq, sub_zero, sub_zero, Real.sqrt_lt' hR]
    constructor <;> intro h <;> linarith
  · rw [geometry_eq, sub_zero, sub_zero, Real.sqrt_eq_iff_eq_sq hnn hR.le]
    constructor <;> intro h <;> linarith
  · rw [geometry_eq, sub_zero, sub_zero, Real.lt_sqrt hR.le]
    constructor <;> intro h <;> linarith

/-- C4, as stated, fails at the drop centre `(0, 0)`: there `geometry` is
`R^2 = 0.000025`, while the signed distance to the interface is `R = 0.005`. -/
theorem geometry_not_signed_distance :
    geometry (0 : ℝ) 0 = 0.000025 ∧
    (R : ℝ) - Real.sqrt ((0 - (pool_depth + R + gap)) ^ 2 + (0 : ℝ) ^ 2) = 0.005 ∧
    geometry (0 : ℝ) 0 ≠
      R - Real.sqrt ((0 - (pool_depth + R + gap)) ^ 2 + (0 : ℝ) ^ 2) := by
  have hc : (pool_depth + R + gap : ℝ) = 0 := by
    unfold pool_depth gap R
    ring
  have hg : geometry (0 : ℝ) 0 = 0.000025 := by
    rw [geometry_eq]
    norm_num
  have hd : (R : ℝ) - Real.sqrt ((0 - (pool_depth + R + gap)) ^ 2 + (0 : ℝ) ^ 2)
      = 0.005 := by
    rw [hc]
    simp [R]
  refine ⟨hg, hd, ?_⟩
  rw [hg, hd]
  norm_num

/-- C4 (amended): with `c = pool_depth + R + gap` and `d` the distance from
`(x, y)` to `(c, 0)`, `geometry x y` is `R^2 - d^2 = (R - d) * (R + d)`; it has
the sign of the signed distance `R - d` and vanishes exactly where `R - d`
does. -/
theorem geometry_sign_of_signed_distance (x y : ℝ) :
    geometry x y =
      (R - Real.sqrt ((x - (pool_depth + R + gap)) ^ 2 + y ^ 2)) *
      (R + Real.sqrt ((x - (pool_depth + R + gap)) ^ 2 + y ^ 2)) ∧
    (0 < geometry x y ↔
      0 < R - Real.sqrt ((x - (pool_depth + R + gap)) ^ 2 + y ^ 2)) ∧
    (geometry x y = 0 ↔
      R - Real.sqrt ((x - (pool_depth + R + gap)) ^ 2 + y ^ 2) = 0) ∧
    (geometry x y < 0 ↔
      R - Real.sqrt ((x - (pool_depth + R + gap)) ^ 2 + y ^ 2) < 0) := by
  have hnn : (0 : ℝ) ≤ (x - (pool_depth + R + gap)) ^ 2 + y ^ 2 := by positivity
  have hd := Real.sqrt_nonneg ((x - (pool_depth + R + gap)) ^ 2 + y ^ 2)
  have hsq := Real.sq_sqrt hnn
  set d := Real.sqrt ((x - (pool_depth + R + gap)) ^ 2 + y ^ 2) with hddef
  have hR : (0 : ℝ) < R := by
    unfold R
    norm_num
  have hpos : (0 : ℝ) < R + d := by linarith
  have hprod : geometry x y = (R - d) * (R + d) := by
    have : geometry x y = R ^ 2 - ((x - (pool_depth + R + gap)) ^ 2 + y ^ 2) := by
      unfold geometry sq
      ring
    rw [this, ← hsq]
    ring
  refine ⟨hprod, ?_, ?_, ?_⟩
  · rw [hprod]
    constructor
    · intro h
      exact (pos_iff_pos_of_mul_pos h).mpr hpos
    · intro h
      exact mul_pos h hpos
  · rw [hprod]
    constructor
    · intro h
      rcases mul_eq_zero.mp h with h1 | h1
      · exact h1
      · linarith
    · intro h
      rw [h, zero_mul]
  · rw [hprod]
    constructor
    · intro h
      by_contra hc
      have : 0 ≤ (R - d) * (R + d) := mul_nonneg (not_lt.mp hc) hpos.le
      linarith
    · intro h
      exact mul_neg_of_neg_of_pos h hpos

/-! ### Contact angle -/

/-- C5: the contact angle is the constant `theta0 = 50` degrees; the argument
passed to `contact_angle` is `5*pi/18`, strictly between `0` and `pi/2`, hence
within `[0, pi]`. -/
theorem contact_angle_arg_fixed {K : Type} [LinearOrderedField K] (pi : K)
    (hpi : 0 < pi) :
    (theta0 : K) = 50 ∧
    contact_angle_arg pi = 5 * pi / 18 ∧
    0 < contact_angle_arg pi ∧
    contact_angle_arg pi < pi / 2 ∧
    contact_angle_arg pi ≤ pi := by
  have h : contact_angle_arg pi = 5 * pi / 18 := by
    unfold contact_angle_arg theta0
    ring
  refine ⟨rfl, h, ?_, ?_, ?_⟩ <;> rw [h] <;> linarith

/-- Witness of C5 at the real number `π`. -/
theorem contact_angle_arg_fixed_witness :
    0 < Real.pi ∧
    (theta0 : ℝ) = 50 ∧
    contact_angle_arg Real.pi = 5 * Real.pi / 18 ∧
    0 < contact_angle_arg Real.pi ∧
    contact_angle_arg Real.pi < Real.pi / 2 ∧
    contact_angle_arg Real.pi ≤ Real.pi :=
  ⟨Real.pi_pos, contact_angle_arg_fixed Real.pi Real.pi_pos⟩

/-! ### Gravity -/

/-- C6: on every `x`-face, the setting `G.x` plus the increment that the
`gravity` event adds to the acceleration field is `-19.62`, not `-9.81`; the
`y`-faces are left unchanged. -/
theorem gravity_counted_twice {K : Type} [LinearOrderedField K] {F : Type}
    (a : FaceVector K F) (i : F) :
    (G_x : K) = -9.81 ∧
    (gravity a).x i - a.x i = -9.81 ∧
    (gravity a).y i = a.y i ∧
    G_x + ((gravity a).x i - a.x i) = -19.62 ∧
    G_x + ((gravity a).x i - a.x i) ≠ -9.81 := by
  have hinc : (gravity a).x i - a.x i = -9.81 := by
    simp only [gravity]
    ring
  refine ⟨rfl, hinc, rfl, ?_, ?_⟩
  · rw [hinc]
    unfold G_x
    norm_num
  · rw [hinc]
    unfold G_x
    norm_num

/-! ### Vorticity mask -/

/-- C8, as stated, fails at `f = 0.01`: the cell is mixed (`0 < f < 1`) and its
mask is `0`. -/
theorem mask_zero_on_mixed_cell :
    (0 : ℚ) < 0.01 ∧ (0.01 : ℚ) < 1 ∧ mask (0.01 : ℚ) = 0 ∧
    ¬ (mask (0.01 : ℚ) = 1 ↔ (0 : ℚ) < 0.01 ∧ (0.01 : ℚ) < 1) := by
  have hm : mask (0.01 : ℚ) = 0 := by
    unfold mask
    norm_num
  refine ⟨by norm_num, by norm_num, hm, ?_⟩
  rw [hm]
  norm_num

/-- C8 (amended): the mask is `1` exactly when `0.05 < f < 0.95` and `0`
otherwise; a masked-in cell is mixed. -/
theorem mask_iff {K : Type} [LinearOrderedField K] (f : K) :
    (mask f = 1 ↔ 0.05 < f ∧ f < 0.95) ∧
    (mask f = 0 ↔ ¬ (0.05 < f ∧ f < 0.95)) ∧
    (mask f = 1 → 0 < f ∧ f < 1) := by
  have h1 : mask f = 1 ↔ 0.05 < f ∧ f < 0.95 := by
    unfold mask
    split_ifs with h
    · simp only [true_iff]
      exact h
    · simp only [zero_ne_one, false_iff]
      exact h
  have h0 : mask f = 0 ↔ ¬ (0.05 < f ∧ f < 0.95) := by
    unfold mask
    split_ifs with h
    · simp only [one_ne_zero, false_iff, not_not]
      exact h
    · simp only [true_iff]
      exact h
  refine ⟨h1, h0, fun hm => ?_⟩
  obtain ⟨ha, hb⟩ := h1.mp hm
  have e1 : (0 : K) < 0.05 := by norm_num
  have e2 : (0.95 : K) < 1 := by norm_num
  exact ⟨lt_trans e1 ha, lt_trans hb e2⟩

/-- Witness of C8 (amended) at `f = 0.5`. -/
theorem mask_iff_witness :
    mask (0.5 : ℚ) = 1 ∧ (0 : ℚ) < 0.5 ∧ (0.5 : ℚ) < 1 :=
  have hm : mask (0.5 : ℚ) = 1 := by
    unfold mask
    norm_num
  ⟨hm, (mask_iff (0.5 : ℚ)).2.2 hm⟩

/-! ### Mesh levels -/

/-- One `adapt` event moves a level by at most one, never refines a cell that
is already at `maxlevel` or above, and never coarsens a cell that is at
`minlevel` or below. -/
theorem adapt_cases {K : Type} [LinearOrderedField K] (e : K × K × K) (L : Nat) :
    adapt e L = L ∨ (adapt e L = L + 1 ∧ L < maxlevel) ∨
      (adapt e L + 1 = L ∧ minlevel < L) := by
  unfold adapt adapt_wavelet_level
  split_ifs with h1 h2 h3 h4
  · exact Or.inr (Or.inl ⟨rfl, h2⟩)
  · exact Or.inl rfl
  · refine Or.inr (Or.inr ⟨?_, h4⟩)
    have : 0 < L := lt_of_le_of_lt (Nat.zero_le _) h4
    omega
  · exact Or.inl rfl
  · exact Or.inl rfl

/-- A run of `adapt` events keeps a level between `minlevel` and any bound `B`
that is at least `maxlevel`. -/
theorem adapt_run_bounds {K : Type} [LinearOrderedField K] (B : Nat)
    (hB : maxlevel ≤ B) (es : List (K × K × K)) :
    ∀ L : Nat, minlevel ≤ L → L ≤ B →
      minlevel ≤ adapt_run es L ∧ adapt_run es L ≤ B := by
  induction es with
  | nil =>
    intro L h1 h2
    exact ⟨h1, h2⟩
  | cons e es ih =>
    intro L h1 h2
    have hstep : adapt_run (e :: es) L = adapt_run es (adapt e L) := rfl
    rw [hstep]
    rcases adapt_cases e L with h | ⟨h, hl⟩ | ⟨h, hl⟩
    · rw [h]
      exact ih L h1 h2
    · exact ih _ (by omega) (by omega)
    · exact ih _ (by omega) (by omega)

/-- The initial mesh of `main()` has level `8`. -/
theorem init_level_eq : init_level = 8 := by
  unfold init_level grid_level init_grid_arg
  rw [Nat.one_shiftLeft]
  exact Nat.log_pow (by decide) 8

/-- C2, as stated, fails on the initial mesh: `init_grid(1 << 8)` builds a grid
of `256` cells per side, of level `8`, above `maxlevel = 7`. -/
theorem init_level_above_maxlevel :
    init_grid_arg = 2 ^ 8 ∧ init_level = 8 ∧ maxlevel = 7 ∧ minlevel = 5 ∧
    ¬ (minlevel ≤ init_level ∧ init_level ≤ maxlevel) := by
  have h8 : init_level = 8 := init_level_eq
  refine ⟨by decide, h8, rfl, rfl, ?_⟩
  rw [h8]
  decide

/-- C2 (amended): the initial mesh has level `8`; after any number of `adapt`
events every cell's level `L` satisfies `minlevel = 5 ≤ L ≤ 8`, and a level
within `[minlevel, maxlevel] = [5, 7]` stays within `[5, 7]`. -/
theorem adapt_level_bounds {K : Type} [LinearOrderedField K]
    (es : List (K × K × K)) :
    init_level = 8 ∧
    (5 ≤ adapt_run es init_level ∧ adapt_run es init_level ≤ 8) ∧
    (∀ L : Nat, 5 ≤ L → L ≤ 7 → 5 ≤ adapt_run es L ∧ adapt_run es L ≤ 7) := by
  have h8 : init_level = 8 := init_level_eq
  refine ⟨h8, ?_, ?_⟩
  · rw [h8]
    exact adapt_run_bounds 8 (by decide) es 8 (by decide) (le_refl _)
  · intro L h1 h2
    exact adapt_run_bounds 7 (le_refl _) es L h1 h2

/-- Witness of C2 (amended): two refining steps and one coarsening step, from
the initial level and from level `6`. -/
theorem adapt_level_bounds_witness :
    (5 ≤ 6 ∧ 6 ≤ 7) ∧
    5 ≤ adapt_run [((1 : ℚ), 0, 0), (1, 0, 0), (0, 0, 0)] 6 ∧
    adapt_run [((1 : ℚ), 0, 0), (1, 0, 0), (0, 0, 0)] 6 ≤ 7 :=
  ⟨by decide,
   (adapt_level_bounds [((1 : ℚ), 0, 0), (1, 0, 0), (0, 0, 0)]).2.2 6
     (by decide) (by decide)⟩

/-! ### Output frames -/

/-- The schedule started at the `k`-th output time with `n` firings left before
`tEnd`: it fires exactly `n` times, and the `j`-th of these firings is at time
`0.0005 * (k + j)` with every index equal to `nf + j`. -/
theorem output_run_from {K : Type} [LinearOrderedField K] (n : Nat) :
    ∀ (fuel k : Nat) (nf : Int), k + n = 601 → n ≤ fuel →
      output_run fuel ((0.0005 : K) * (k : K)) nf =
        (List.range n).map (fun j : Nat =>
          ({ t := 0.0005 * ((k + j : Nat) : K), interface_idx := nf + j,
             vof_idx := nf + j, vort_idx := nf + j,
             progress_idx := nf + j } : OutputRecord K)) := by
  induction n with
  | zero =>
    intro fuel k nf hk _
    have hk601 : k = 601 := by omega
    subst hk601
    cases fuel with
    | zero => rfl
    | succ f =>
      have hlate : ¬ ((0.0005 : K) * ((601 : Nat) : K) ≤ tEnd) := by
        unfold tEnd
        norm_num
      simp only [output_run, if_neg hlate, List.range_zero, List.map_nil]
  | succ n ih =>
    intro fuel k nf hk hfuel
    cases fuel with
    | zero => omega
    | succ f =>
      have hk600 : k ≤ 600 := by omega
      have hin : (0.0005 : K) * (k : K) ≤ tEnd := by
        unfold tEnd
        have : (k : K) ≤ 600 := by exact_mod_cast hk600
        norm_num
        linarith
      have hnext : (0.0005 : K) * (k : K) + 0.0005
          = 0.0005 * ((k + 1 : Nat) : K) := by
        push_cast
        ring
      have hrec := ih f (k + 1) (nf + 1) (by omega) (by omega)
      simp only [output_run, if_pos hin, output, hnext, hrec,
        List.range_succ_eq_map, List.map_cons, List.map_map]
      refine congrArg₂ List.cons ?_ ?_
      · simp
      · apply List.map_congr_left
        intro j _
        simp only [Function.comp, Nat.succ_eq_add_one]
        have e1 : k + 1 + j = k + (j + 1) := by omega
        have e2 : nf + 1 + (j : Int) = nf + ((j + 1 : Nat) : Int) := by
          push_cast
          ring
        rw [e1, e2]

/-- C9: with enough fuel, the `output` event fires exactly `601` times, and its
`k`-th firing (`k = 0, ..., 600`) is at time `0.0005 * k` and uses the frame
index `k` in the three file names and in the progress record. -/
theorem output_events_frames {K : Type} [LinearOrderedField K] (fuel : Nat)
    (hfuel : 601 ≤ fuel) :
    (output_events fuel : List (OutputRecord K)).length = 601 ∧
    (output_events fuel : List (OutputRecord K)) =
      (List.range 601).map (fun k : Nat =>
        ({ t := 0.0005 * (k : K), interface_idx := k, vof_idx := k,
           vort_idx := k, progress_idx := k } : OutputRecord K)) ∧
    (∀ k : Nat, k < 601 →
      (output_events fuel : List (OutputRecord K))[k]? =
        some { t := 0.0005 * (k : K), interface_idx := k, vof_idx := k,
               vort_idx := k, progress_idx := k }) := by
  have h := output_run_from (K := K) 601 fuel 0 0 (by omega) hfuel
  have heq : (output_events fuel : List (OutputRecord K)) =
      (List.range 601).map (fun k : Nat =>
        ({ t := 0.0005 * (k : K), interface_idx := k, vof_idx := k,
           vort_idx := k, progress_idx := k } : OutputRecord K)) := by
    unfold output_events
    have h0 : (0 : K) = 0.0005 * ((0 : Nat) : K) := by simp
    rw [h0, h]
    apply List.map_congr_left
    intro j _
    simp
  refine ⟨?_, heq, ?_⟩
  · rw [heq, List.length_map, List.length_range]
  · intro k hk
    rw [heq, List.getElem?_map, List.getElem?_range hk]
    rfl

/-- Witness of C9 with fuel `601`: there are `601` firings and the last one,
at `k = 600`, uses the frame index `600`. -/
theorem output_events_frames_witness :
    601 ≤ 601 ∧ 600 < 601 ∧
    (output_events 601 : List (OutputRecord ℚ)).length = 601 ∧
    (output_events 601 : List (OutputRecord ℚ))[600]? =
      some { t := 0.0005 * ((600 : Nat) : ℚ), interface_idx := (600 : Nat),
             vof_idx := (600 : Nat), vort_idx := (600 : Nat),
             progress_idx := (600 : Nat) } :=
  ⟨le_refl _, by decide, (output_events_frames 601 (le_refl _)).1,
   (output_events_frames 601 (le_refl _)).2.2 600 (by decide)⟩

/-! ### Log -/

/-- A running maximum started at `m` over values `g u`: the result is at least
`m`, at least every `g u`, and is either `m` or one of the `g u`. -/
theorem foldl_max_spec {K : Type} [LinearOrderedField K] {α : Type} (g : α → K)
    (l : List α) :
    ∀ m : K,
      m ≤ l.foldl (fun acc u => max acc (g u)) m ∧
      (∀ u ∈ l, g u ≤ l.foldl (fun acc u => max acc (g u)) m) ∧
      (l.foldl (fun acc u => max acc (g u)) m = m ∨
        ∃ u ∈ l, l.foldl (fun acc u => max acc (g u)) m = g u) := by
  induction l with
  | nil =>
    intro m
    simp
  | cons a l ih =>
    intro m
    obtain ⟨h1, h2, h3⟩ := ih (max m (g a))
    simp only [List.foldl_cons, List.mem_cons, forall_eq_or_imp, exists_eq_or_imp]
    refine ⟨le_trans (le_max_left _ _) h1, ⟨le_trans (le_max_right _ _) h1, h2⟩, ?_⟩
    rcases h3 with h | ⟨u, hu, h⟩
    · rcases max_choice m (g a) with hm | hm
      · left
        rw [h, hm]
      · right
        left
        rw [h, hm]
    · right
      right
      exact ⟨u, hu, h⟩

/-- C7: the `umax` of the `log` event is the maximum velocity magnitude over
the cells: it is `0` on an empty mesh, non-negative, at least the speed
`sqrt(u.x^2 + u.y^2)` of every cell, and attained by some cell when the mesh is
non-empty. -/
theorem log_umax_is_max (cells : List (ℝ × ℝ)) :
    (cells = [] → log_umax Real.sqrt cells = 0) ∧
    0 ≤ log_umax Real.sqrt cells ∧
    (∀ u ∈ cells, Real.sqrt (u.1 ^ 2 + u.2 ^ 2) ≤ log_umax Real.sqrt cells) ∧
    (cells ≠ [] →
      ∃ u ∈ cells, log_umax Real.sqrt cells = Real.sqrt (u.1 ^ 2 + u.2 ^ 2)) := by
  have hsq : ∀ u : ℝ × ℝ, Real.sqrt (sq u.1 + sq u.2)
      = Real.sqrt (u.1 ^ 2 + u.2 ^ 2) := by
    intro u
    unfold sq
    rw [pow_two, pow_two]
  obtain ⟨h1, h2, h3⟩ :=
    foldl_max_spec (fun u : ℝ × ℝ => Real.sqrt (sq u.1 + sq u.2)) cells 0
  refine ⟨?_, h1, ?_, ?_⟩
  · intro hnil
    rw [hnil]
    rfl
  · intro u hu
    rw [← hsq u]
    exact h2 u hu
  · intro hne
    rcases h3 with h | ⟨u, hu, h⟩
    · obtain ⟨a, l, rfl⟩ := List.exists_cons_of_ne_nil hne
      refine ⟨a, List.mem_cons_self a l, ?_⟩
      have hle := h2 a (List.mem_cons_self a l)
      have hge := Real.sqrt_nonneg (sq a.1 + sq a.2)
      rw [← hsq a]
      unfold log_umax
      rw [h] at hle ⊢
      exact le_antisymm hge hle
    · exact ⟨u, hu, by rw [← hsq u]; exact h⟩

/-- Witness of C7 on a mesh of two cells with velocities `(3, 4)` and
`(0, 1)`. -/
theorem log_umax_is_max_witness :
    ([(3, 4), (0, 1)] : List (ℝ × ℝ)) ≠ [] ∧
    ∃ u ∈ ([(3, 4), (0, 1)] : List (ℝ × ℝ)),
      log_umax Real.sqrt [(3, 4), (0, 1)] = Real.sqrt (u.1 ^ 2 + u.2 ^ 2) :=
  ⟨by simp, (log_umax_is_max [(3, 4), (0, 1)]).2.2.2 (by simp)⟩

end Sessile
